import Mathlib

set_option maxRecDepth 40000

/-!
Shallow embedding of the caption-serialization engine of
`scripts/transcribe.py`: timestamp formatting, SubRip and WebVTT document
assembly, format dispatch and output-path resolution, together with proofs
of the specification's claims about them.

Real seconds values are modelled as rationals; Python's `//`, `%` and
`int()` on them are embedded with their exact semantics (floor division,
floored modulo, truncation toward zero).
-/

/-- A timed text segment as produced by the external speech-recognition
model: start time, end time (in seconds) and transcribed text. -/
structure Segment where
  start : ℚ
  «end» : ℚ
  text : String

/-- Truncation toward zero: the semantics of Python `int()` on a real. -/
def pyInt (q : ℚ) : ℤ := if q < 0 then ⌈q⌉ else ⌊q⌋

/-- Python floor division `a // b` on reals. -/
def pyFloorDiv (a b : ℚ) : ℚ := (⌊a / b⌋ : ℚ)

/-- Python modulo `a % b` on reals: `a - b * (a // b)`. -/
def pyMod (a b : ℚ) : ℚ := a - b * (⌊a / b⌋ : ℚ)

/-- The decimal digit characters of `n`, most significant first (the
digits of Python decimal integer formatting). -/
def natDigits (n : Nat) : List Char :=
  if _h : n < 10 then [Nat.digitChar n]
  else natDigits (n / 10) ++ [Nat.digitChar (n % 10)]
termination_by n
decreasing_by
  simp_wf
  omega

/-- Left-pad a digit list with zeros to width `w`. -/
def zfill (w : Nat) (ds : List Char) : List Char :=
  List.replicate (w - ds.length) '0' ++ ds

/-- Python `"%0Nd"` integer formatting: optional sign, then the decimal
digits, zero-padded between sign and digits so the whole rendering has
width at least `w`. -/
def formatInt (w : Nat) (n : ℤ) : String :=
  if n < 0 then ⟨'-' :: zfill (w - 1) (natDigits n.natAbs)⟩
  else ⟨zfill w (natDigits n.natAbs)⟩

/-- `format_timestamp` from `scripts/transcribe.py`: format a seconds
value as an SRT/VTT timestamp `HH:MM:SS{,|.}mmm`. -/
def format_timestamp (seconds : ℚ) (use_comma : Bool) : String :=
  let hours := pyInt (pyFloorDiv seconds 3600)
  let minutes := pyInt (pyFloorDiv (pyMod seconds 3600) 60)
  let secs := pyInt (pyMod seconds 60)
  let millis := pyInt ((seconds - (pyInt seconds : ℚ)) * 1000)
  let sep := if use_comma then "," else "."
  formatInt 2 hours ++ ":" ++ formatInt 2 minutes ++ ":" ++ formatInt 2 secs ++
    sep ++ formatInt 3 millis

/-- The four timestamp fields (hours, minutes, secs, millis) exactly as
`format_timestamp` computes them. -/
def timestampFields (seconds : ℚ) : ℤ × ℤ × ℤ × ℤ :=
  (pyInt (pyFloorDiv seconds 3600),
   pyInt (pyFloorDiv (pyMod seconds 3600) 60),
   pyInt (pyMod seconds 60),
   pyInt ((seconds - (pyInt seconds : ℚ)) * 1000))

/-- Python's whitespace test for `str.strip` (ASCII whitespace). -/
def isPySpace (c : Char) : Bool :=
  c = ' ' || c = '\t' || c = '\n' || c = '\x0b' || c = '\x0c' || c = '\r'

/-- Python `str.strip()`: remove leading and trailing whitespace. -/
def pyStrip (s : String) : String :=
  ⟨((s.data.dropWhile isPySpace).reverse.dropWhile isPySpace).reverse⟩

/-- Python `sep.join(xs)`: the elements of `xs` concatenated with `sep`
between consecutive elements, nothing appended after the last. -/
def pyJoin (sep : String) : List String → String
  | [] => ""
  | [x] => x
  | x :: y :: rest => x ++ sep ++ pyJoin sep (y :: rest)

/-- One SubRip block as built in `generate_srt`: index line, timing line,
stripped text, newline. -/
def srtBlock (i : Nat) (seg : Segment) : String :=
  toString i ++ "\n" ++ format_timestamp seg.start true ++ " --> " ++
    format_timestamp seg.«end» true ++ "\n" ++ pyStrip seg.text ++ "\n"

/-- The SubRip blocks of a segment list, numbered from `i`
(`generate_srt` enumerates from 1). -/
def srtLines : Nat → List Segment → List String
  | _, [] => []
  | i, seg :: rest => srtBlock i seg :: srtLines (i + 1) rest

/-- `generate_srt` from `scripts/transcribe.py`. -/
def generate_srt (segments : List Segment) : String :=
  pyJoin "\n" (srtLines 1 segments)

/-- One WebVTT cue block as built in `generate_vtt`: timing line with dot
separators, stripped text, newline; no numbering. -/
def vttBlock (seg : Segment) : String :=
  format_timestamp seg.start false ++ " --> " ++
    format_timestamp seg.«end» false ++ "\n" ++ pyStrip seg.text ++ "\n"

/-- `generate_vtt` from `scripts/transcribe.py`. -/
def generate_vtt (segments : List Segment) : String :=
  pyJoin "\n" ("WEBVTT\n" :: segments.map vttBlock)

/-- The format dispatch of `transcribe` in `scripts/transcribe.py`: the
`srt`/`vtt` serializers work from the segments, `txt` returns the raw
full-text field, `json` the structured dump of the whole result; any
other selector raises `ValueError("Unsupported format: ...")`. -/
def render (output_format : String) (segments : List Segment)
    (full_text : String) (json_dump : String) : Except String String :=
  if output_format = "srt" then Except.ok (generate_srt segments)
  else if output_format = "vtt" then Except.ok (generate_vtt segments)
  else if output_format = "txt" then Except.ok full_text
  else if output_format = "json" then Except.ok json_dump
  else Except.error ("Unsupported format: " ++ output_format)

/-- The output step of `transcribe`: the content is rendered first and the
single `write_text` happens only afterwards.  The result lists the files
written, as (path, content) pairs; a raised error carries no writes. -/
def transcribeWrites (output_format : String) (out_path : String)
    (segments : List Segment) (full_text : String) (json_dump : String) :
    Except String (List (String × String)) :=
  match render output_format segments full_text json_dump with
  | Except.ok content => Except.ok [(out_path, content)]
  | Except.error e => Except.error e

/-- Index of the last occurrence of `c` in `l` (Python `str.rfind`),
`none` when absent. -/
def lastIdxOf (c : Char) : List Char → Option Nat
  | [] => none
  | a :: rest =>
    match lastIdxOf c rest with
    | some i => some (i + 1)
    | none => if a = c then some 0 else none

/-- `pathlib` suffix replacement on a file name: a name has a suffix when
its last dot is neither the first nor the last character; the suffix is
dropped and the new one appended. -/
def withSuffixName (name : List Char) (suffix : List Char) : List Char :=
  match lastIdxOf '.' name with
  | some i =>
    if 0 < i ∧ i + 1 < name.length then name.take i ++ suffix
    else name ++ suffix
  | none => name ++ suffix

/-- `pathlib.Path.with_suffix` as a string transformation: the suffix
replacement acts on the final path component only. -/
def with_suffix (path : String) (suffix : String) : String :=
  match lastIdxOf '/' path.data with
  | some i =>
    ⟨path.data.take (i + 1) ++
      withSuffixName (path.data.drop (i + 1)) suffix.data⟩
  | none => ⟨withSuffixName path.data suffix.data⟩

/-- Output-path determination in `transcribe`: a truthy (non-`None`,
non-empty) `output_path` is used verbatim, otherwise the input path with
its suffix replaced by `.` plus the format. -/
def resolveOutputPath (input_file : String) (output_path : Option String)
    (output_format : String) : String :=
  match output_path with
  | some p =>
    if p.isEmpty then with_suffix input_file ("." ++ output_format) else p
  | none => with_suffix input_file ("." ++ output_format)

/-- The seconds value denoted by a parsed timestamp string with fields
`h:m:s` and milliseconds `ms`. -/
def parseTimestampSeconds (h m s ms : ℤ) : ℚ :=
  (h : ℚ) * 3600 + (m : ℚ) * 60 + (s : ℚ) + (ms : ℚ) / 1000

/-- The timestamp formatter as the specification words it: hours, minutes
and seconds by successive floored division (`x mod y` is the floored
modulo `x - y * floor (x / y)`), milliseconds as
`floor ((seconds - floor seconds) * 1000)`, each field zero-padded, with
a comma separator exactly when `commaFractional` is set. -/
def formatTimestampSpec (seconds : ℚ) (commaFractional : Bool) : String :=
  let hours : ℤ := ⌊seconds / 3600⌋
  let minutes : ℤ := ⌊(seconds - 3600 * (⌊seconds / 3600⌋ : ℚ)) / 60⌋
  let secs : ℤ := ⌊seconds - 60 * (⌊seconds / 60⌋ : ℚ)⌋
  let millis : ℤ := ⌊(seconds - (⌊seconds⌋ : ℚ)) * 1000⌋
  let sep := if commaFractional then "," else "."
  formatInt 2 hours ++ ":" ++ formatInt 2 minutes ++ ":" ++ formatInt 2 secs ++
    sep ++ formatInt 3 millis

/-- Decides whether a character list matches the timestamp pattern
`\d{2,}:\d{2}:\d{2}[,.]\d{3}`. -/
def timestampShape (cs : List Char) : Bool :=
  let hrs := cs.takeWhile fun ch => ch ≠ ':'
  let rest := cs.dropWhile fun ch => ch ≠ ':'
  decide (2 ≤ hrs.length) && hrs.all Char.isDigit &&
    match rest with
    | ':' :: m1 :: m2 :: ':' :: s1 :: s2 :: sep :: d1 :: d2 :: d3 :: [] =>
      ([m1, m2, s1, s2, d1, d2, d3].all Char.isDigit) &&
        (sep = ',' || sep = '.')
    | _ => false


theorem pyJoin_append_last (sep x y : String) (l : List String) :
    pyJoin sep (x :: (l ++ [y])) = pyJoin sep (x :: l) ++ sep ++ y := by
  induction l generalizing x with
  | nil => simp [pyJoin, String.append_assoc]
  | cons a l ih =>
    calc pyJoin sep (x :: a :: (l ++ [y]))
        = x ++ sep ++ pyJoin sep (a :: (l ++ [y])) := rfl
      _ = x ++ sep ++ (pyJoin sep (a :: l) ++ sep ++ y) := by rw [ih]
      _ = (x ++ sep ++ pyJoin sep (a :: l)) ++ sep ++ y := by
            simp [String.append_assoc]
      _ = pyJoin sep (x :: a :: l) ++ sep ++ y := rfl

theorem srtLines_append (i : Nat) (l1 l2 : List Segment) :
    srtLines i (l1 ++ l2) = srtLines i l1 ++ srtLines (i + l1.length) l2 := by
  induction l1 generalizing i with
  | nil => simp [srtLines]
  | cons a l ih =>
    have h2 : i + (l.length + 1) = i + 1 + l.length := by omega
    calc srtLines i ((a :: l) ++ l2)
        = srtBlock i a :: srtLines (i + 1) (l ++ l2) := rfl
      _ = srtBlock i a ::
            (srtLines (i + 1) l ++ srtLines (i + 1 + l.length) l2) := by rw [ih]
      _ = (srtBlock i a :: srtLines (i + 1) l) ++
            srtLines (i + 1 + l.length) l2 := rfl
      _ = srtLines i (a :: l) ++ srtLines (i + (a :: l).length) l2 := by
            rw [List.length_cons, h2]
            rfl

/-- C1: rendering the Hello/World segments as SubRip yields the two
blocks in order — but joined by a single newline, so the document ends
with the final block's own newline and no extra trailing blank line; in
general appending a segment appends a newline plus its block. -/
theorem generate_srt_concat :
    generate_srt [⟨0, 3/2, "Hello"⟩, ⟨3/2, 13/4, "World"⟩] =
      "1\n00:00:00,000 --> 00:00:01,500\nHello\n\n2\n00:00:01,500 --> 00:00:03,250\nWorld\n" ∧
    (∀ s : Segment, generate_srt [s] = srtBlock 1 s) ∧
    (∀ (s0 : Segment) (rest : List Segment) (s : Segment),
      generate_srt (s0 :: (rest ++ [s])) =
        generate_srt (s0 :: rest) ++ "\n" ++ srtBlock (rest.length + 2) s) := by
  refine ⟨by with_unfolding_all rfl, fun s => rfl, fun s0 rest s => ?_⟩
  show pyJoin "\n" (srtLines 1 (s0 :: (rest ++ [s]))) = _
  have h1 : srtLines 1 (s0 :: (rest ++ [s])) =
      srtBlock 1 s0 :: (srtLines 2 rest ++ [srtBlock (rest.length + 2) s]) := by
    show srtBlock 1 s0 :: srtLines 2 (rest ++ [s]) = _
    rw [srtLines_append 2 rest [s],
      show 2 + rest.length = rest.length + 2 from by omega]
    rfl
  rw [h1, pyJoin_append_last]
  rfl

/-- C1 as stated is false: the generated SubRip document for the
Hello/World segments does not carry a trailing blank line. -/
theorem generate_srt_trailing_cex :
    generate_srt [⟨0, 3/2, "Hello"⟩, ⟨3/2, 13/4, "World"⟩] ≠
      "1\n00:00:00,000 --> 00:00:01,500\nHello\n\n2\n00:00:01,500 --> 00:00:03,250\nWorld\n\n" := by
  have h :
      generate_srt [⟨0, 3/2, "Hello"⟩, ⟨3/2, 13/4, "World"⟩] =
        "1\n00:00:00,000 --> 00:00:01,500\nHello\n\n2\n00:00:01,500 --> 00:00:03,250\nWorld\n" := by
    with_unfolding_all rfl
  rw [h]
  decide

/-- C2: the empty segment sequence yields the empty SubRip document and
the WebVTT document consisting of the header line and its newline. -/
theorem empty_segments_documents :
    generate_srt [] = "" ∧ generate_vtt [] = "WEBVTT\n" :=
  ⟨rfl, rfl⟩

/-- C2 as stated is false: WebVTT rendering of the empty sequence does
not produce a blank line after the header. -/
theorem generate_vtt_empty_cex : generate_vtt [] ≠ "WEBVTT\n\n" := by
  decide

/-- C3: rendering the Hello/World segments as WebVTT yields the header,
a blank line, and the dot-separator cue blocks in order, the document
ending with the final block's own newline (no extra trailing blank
line); in general appending a segment appends a newline plus its
unnumbered cue block. -/
theorem generate_vtt_structure :
    generate_vtt [⟨0, 3/2, "Hello"⟩, ⟨3/2, 13/4, "World"⟩] =
      "WEBVTT\n\n00:00:00.000 --> 00:00:01.500\nHello\n\n00:00:01.500 --> 00:00:03.250\nWorld\n" ∧
    (∀ (segs : List Segment) (s : Segment),
      generate_vtt (segs ++ [s]) = generate_vtt segs ++ "\n" ++ vttBlock s) := by
  refine ⟨by with_unfolding_all rfl, fun segs s => ?_⟩
  show pyJoin "\n" ("WEBVTT\n" :: (segs ++ [s]).map vttBlock) = _
  rw [List.map_append]
  exact pyJoin_append_last "\n" "WEBVTT\n" (vttBlock s) (segs.map vttBlock)

/-- C3 as stated is false: the generated WebVTT document for the
Hello/World segments does not carry a trailing blank line. -/
theorem generate_vtt_trailing_cex :
    generate_vtt [⟨0, 3/2, "Hello"⟩, ⟨3/2, 13/4, "World"⟩] ≠
      "WEBVTT\n\n00:00:00.000 --> 00:00:01.500\nHello\n\n00:00:01.500 --> 00:00:03.250\nWorld\n\n" := by
  have h :
      generate_vtt [⟨0, 3/2, "Hello"⟩, ⟨3/2, 13/4, "World"⟩] =
        "WEBVTT\n\n00:00:00.000 --> 00:00:01.500\nHello\n\n00:00:01.500 --> 00:00:03.250\nWorld\n" := by
    with_unfolding_all rfl
  rw [h]
  decide

/-- C6: any format selector outside {srt, vtt, txt, json} makes the
render dispatch fail with an error naming the offending value, and the
transcribe output step then performs no write at all. -/
theorem render_unsupported_format (fmt out_path : String)
    (segments : List Segment) (full_text json_dump : String)
    (h1 : fmt ≠ "srt") (h2 : fmt ≠ "vtt") (h3 : fmt ≠ "txt")
    (h4 : fmt ≠ "json") :
    render fmt segments full_text json_dump =
      Except.error ("Unsupported format: " ++ fmt) ∧
    transcribeWrites fmt out_path segments full_text json_dump =
      Except.error ("Unsupported format: " ++ fmt) := by
  have hr : render fmt segments full_text json_dump =
      Except.error ("Unsupported format: " ++ fmt) := by
    simp [render, h1, h2, h3, h4]
  exact ⟨hr, by simp [transcribeWrites, hr]⟩

theorem render_unsupported_format_witness :
    render "xml" [] "" "" = Except.error ("Unsupported format: " ++ "xml") ∧
    transcribeWrites "xml" "out" [] "" "" =
      Except.error ("Unsupported format: " ++ "xml") :=
  render_unsupported_format "xml" "out" [] "" ""
    (by decide) (by decide) (by decide) (by decide)


theorem lastIdxOf_append (c : Char) (l1 l2 : List Char) :
    lastIdxOf c (l1 ++ l2) =
      match lastIdxOf c l2 with
      | some i => some (l1.length + i)
      | none => lastIdxOf c l1 := by
  induction l1 with
  | nil => cases h : lastIdxOf c l2 <;> simp [h, lastIdxOf]
  | cons a l ih =>
    show (match lastIdxOf c (l ++ l2) with
      | some i => some (i + 1)
      | none => if a = c then some 0 else none) = _
    rw [ih]
    cases h : lastIdxOf c l2 with
    | none => rfl
    | some i =>
      show some (l.length + i + 1) = some ((a :: l).length + i)
      rw [List.length_cons]
      exact congrArg some (by omega)

theorem lastIdxOf_eq_none (c : Char) (l : List Char)
    (h : ∀ a ∈ l, a ≠ c) : lastIdxOf c l = none := by
  induction l with
  | nil => rfl
  | cons a l ih =>
    show (match lastIdxOf c l with
      | some i => some (i + 1)
      | none => if a = c then some 0 else none) = none
    rw [ih fun x hx => h x (List.mem_cons_of_mem a hx)]
    exact if_neg (h a (List.mem_cons_self a l))

theorem string_ext_data {a b : String} (h : a.data = b.data) : a = b := by
  cases a
  cases b
  exact congrArg String.mk h

theorem with_suffix_no_slash (path suffix : String)
    (h : lastIdxOf '/' path.data = none) :
    with_suffix path suffix = ⟨withSuffixName path.data suffix.data⟩ := by
  unfold with_suffix
  rw [h]

/-- C5: output-path resolution uses a non-empty explicit override
verbatim; otherwise it strips the input path's last extension (when its
final component has one) and appends a dot plus the format's canonical
extension. -/
theorem resolve_output_path_cases :
    (∀ (input fmt p : String), p ≠ "" →
      resolveOutputPath input (some p) fmt = p) ∧
    (∀ (stem ext fmt : String), stem.data ≠ [] →
      (∀ a ∈ stem.data, a ≠ '/') → ext.data ≠ [] →
      (∀ a ∈ ext.data, a ≠ '/' ∧ a ≠ '.') →
      resolveOutputPath (stem ++ "." ++ ext) none fmt = stem ++ "." ++ fmt) ∧
    (∀ (name fmt : String), name.data ≠ [] →
      (∀ a ∈ name.data, a ≠ '/' ∧ a ≠ '.') →
      resolveOutputPath name none fmt = name ++ "." ++ fmt) ∧
    resolveOutputPath "clip.mp4" none "srt" = "clip.srt" ∧
    resolveOutputPath "a.b.mp4" (some "out.vtt") "vtt" = "out.vtt" := by
  refine ⟨fun input fmt p hp => ?_, fun stem ext fmt hstem hs hext he => ?_,
    fun name fmt hname hn => ?_, by decide, by decide⟩
  · show (if p.isEmpty then with_suffix input ("." ++ fmt) else p) = p
    rw [if_neg]
    simp only [String.isEmpty_iff]
    exact hp
  · have hdata : (stem ++ "." ++ ext).data = stem.data ++ ('.' :: ext.data) := by
      rw [String.data_append, String.data_append, List.append_assoc]
      congr 1
    have hslash : lastIdxOf '/' ((stem ++ "." ++ ext).data) = none := by
      rw [hdata]
      apply lastIdxOf_eq_none
      intro a ha
      rcases List.mem_append.mp ha with h1 | h2
      · exact hs a h1
      · rcases List.mem_cons.mp h2 with h3 | h4
        · rw [h3]
          decide
        · exact (he a h4).1
    have hdot : lastIdxOf '.' ((stem ++ "." ++ ext).data) =
        some stem.data.length := by
      rw [hdata, lastIdxOf_append]
      have h2 : lastIdxOf '.' ('.' :: ext.data) = some 0 := by
        show (match lastIdxOf '.' ext.data with
          | some i => some (i + 1)
          | none => if '.' = '.' then some 0 else none) = some 0
        rw [lastIdxOf_eq_none '.' ext.data fun a ha => (he a ha).2]
        rfl
      rw [h2]
      rfl
    have hcond : 0 < stem.data.length ∧
        stem.data.length + 1 < ((stem ++ "." ++ ext).data).length := by
      constructor
      · exact List.length_pos.mpr hstem
      · rw [hdata, List.length_append, List.length_cons]
        have l2 : 0 < ext.data.length := List.length_pos.mpr hext
        omega
    have hws : withSuffixName ((stem ++ "." ++ ext).data) (("." ++ fmt).data) =
        stem.data ++ ("." ++ fmt).data := by
      unfold withSuffixName
      rw [hdot]
      calc (if 0 < stem.data.length ∧
              stem.data.length + 1 < ((stem ++ "." ++ ext).data).length then
              ((stem ++ "." ++ ext).data).take stem.data.length ++
                ("." ++ fmt).data
            else (stem ++ "." ++ ext).data ++ ("." ++ fmt).data)
          = ((stem ++ "." ++ ext).data).take stem.data.length ++
              ("." ++ fmt).data := if_pos hcond
        _ = stem.data ++ ("." ++ fmt).data := by rw [hdata, List.take_left]
    rw [show resolveOutputPath (stem ++ "." ++ ext) none fmt =
      with_suffix (stem ++ "." ++ ext) ("." ++ fmt) from rfl]
    rw [with_suffix_no_slash _ _ hslash]
    apply string_ext_data
    show withSuffixName ((stem ++ "." ++ ext).data) (("." ++ fmt).data) =
      (stem ++ "." ++ fmt).data
    rw [hws]
    simp only [String.data_append, List.append_assoc]
  · have hslash : lastIdxOf '/' name.data = none :=
      lastIdxOf_eq_none _ _ fun a ha => (hn a ha).1
    have hdot : lastIdxOf '.' name.data = none :=
      lastIdxOf_eq_none _ _ fun a ha => (hn a ha).2
    rw [show resolveOutputPath name none fmt =
      with_suffix name ("." ++ fmt) from rfl]
    rw [with_suffix_no_slash _ _ hslash]
    apply string_ext_data
    show withSuffixName name.data (("." ++ fmt).data) = (name ++ "." ++ fmt).data
    unfold withSuffixName
    rw [hdot]
    show name.data ++ ("." ++ fmt).data = (name ++ "." ++ fmt).data
    simp only [String.data_append, List.append_assoc]

theorem resolve_output_path_cases_witness :
    resolveOutputPath "video" (some "caps.srt") "srt" = "caps.srt" ∧
    resolveOutputPath "clip.mp4" none "vtt" = "clip.vtt" ∧
    resolveOutputPath "clip" none "txt" = "clip.txt" :=
  ⟨resolve_output_path_cases.1 "video" "srt" "caps.srt" (by decide),
   resolve_output_path_cases.2.1 "clip" "mp4" "vtt" (by decide)
     (by decide) (by decide) (by decide),
   resolve_output_path_cases.2.2.1 "clip" "txt" (by decide) (by decide)⟩

theorem pyInt_of_nonneg (q : ℚ) (h : 0 ≤ q) : pyInt q = ⌊q⌋ :=
  if_neg (not_lt.mpr h)

theorem pyInt_intCast (n : ℤ) : pyInt (n : ℚ) = n := by
  unfold pyInt
  split
  · rw [Int.ceil_intCast]
  · rw [Int.floor_intCast]

theorem int_floor_div_nat (q : ℚ) (n : ℕ) (hq : 0 ≤ q) :
    ⌊q / (n : ℚ)⌋ = ((⌊q⌋₊ / n : ℕ) : ℤ) := by
  rw [← Nat.floor_div_nat q n]
  exact (Int.natCast_floor_eq_floor (div_nonneg hq (Nat.cast_nonneg n))).symm

/-- C4: for non-negative seconds the source formatter agrees with the
specification's description of it (successive floored division for the
clock fields, floored scaled fractional part for the milliseconds,
comma separator exactly when requested). -/
theorem format_timestamp_eq_spec (seconds : ℚ) (use_comma : Bool)
    (h : 0 ≤ seconds) :
    format_timestamp seconds use_comma = formatTimestampSpec seconds use_comma := by
  simp only [format_timestamp, formatTimestampSpec]
  have h1 : pyInt (pyFloorDiv seconds 3600) = ⌊seconds / 3600⌋ :=
    pyInt_intCast _
  have h2 : pyInt (pyFloorDiv (pyMod seconds 3600) 60) =
      ⌊(seconds - 3600 * (⌊seconds / 3600⌋ : ℚ)) / 60⌋ :=
    pyInt_intCast _
  have h3 : pyInt (pyMod seconds 60) =
      ⌊seconds - 60 * (⌊seconds / 60⌋ : ℚ)⌋ := by
    have h0 : (0:ℚ) ≤ pyMod seconds 60 := by
      have h60 := Int.sub_floor_div_mul_nonneg seconds
        (show (0:ℚ) < 60 by norm_num)
      unfold pyMod
      linarith
    rw [pyInt_of_nonneg _ h0]
    rfl
  have h4 : pyInt ((seconds - (pyInt seconds : ℚ)) * 1000) =
      ⌊(seconds - (⌊seconds⌋ : ℚ)) * 1000⌋ := by
    rw [pyInt_of_nonneg seconds h, pyInt_of_nonneg]
    exact mul_nonneg (sub_nonneg.mpr (Int.floor_le seconds)) (by norm_num)
  rw [h1, h2, h3, h4]

theorem format_timestamp_eq_spec_witness :
    format_timestamp (3/2) true = formatTimestampSpec (3/2) true :=
  format_timestamp_eq_spec (3/2) true (by norm_num)

theorem nat_floor_div_1000 (q : ℚ) :
    ⌊q⌋₊ = ⌊1000 * q⌋₊ / 1000 := by
  have h : (1000 * q) / ((1000 : ℕ) : ℚ) = q := by
    rw [show (((1000 : ℕ) : ℚ)) = 1000 from by norm_num]
    ring
  rw [← Nat.floor_div_nat (1000 * q) 1000, h]

theorem timestampFields_eq (q : ℚ) (hq : 0 ≤ q) :
    timestampFields q =
      (((⌊1000 * q⌋₊ / 3600000 : ℕ) : ℤ),
       ((⌊1000 * q⌋₊ % 3600000 / 60000 : ℕ) : ℤ),
       ((⌊1000 * q⌋₊ % 60000 / 1000 : ℕ) : ℤ),
       ((⌊1000 * q⌋₊ % 1000 : ℕ) : ℤ)) := by
  have hq1000 : (0:ℚ) ≤ 1000 * q := by positivity
  have hM : (⌊1000 * q⌋ : ℤ) = ((⌊1000 * q⌋₊ : ℕ) : ℤ) :=
    (Int.natCast_floor_eq_floor hq1000).symm
  have hfloor : ⌊q⌋ = ((⌊1000 * q⌋₊ / 1000 : ℕ) : ℤ) := by
    rw [← nat_floor_div_1000 q]
    exact (Int.natCast_floor_eq_floor hq).symm
  have h3600 : ⌊q / 3600⌋ = ((⌊1000 * q⌋₊ / 3600000 : ℕ) : ℤ) := by
    rw [show (3600 : ℚ) = ((3600 : ℕ) : ℚ) from by norm_num,
      int_floor_div_nat q 3600 hq, nat_floor_div_1000 q,
      Nat.div_div_eq_div_mul]
  have h60 : ⌊q / 60⌋ = ((⌊1000 * q⌋₊ / 60000 : ℕ) : ℤ) := by
    rw [show (60 : ℚ) = ((60 : ℕ) : ℚ) from by norm_num,
      int_floor_div_nat q 60 hq, nat_floor_div_1000 q,
      Nat.div_div_eq_div_mul]
  have hhours : pyInt (pyFloorDiv q 3600) =
      ((⌊1000 * q⌋₊ / 3600000 : ℕ) : ℤ) := by
    have hc : pyInt (pyFloorDiv q 3600) = ⌊q / 3600⌋ := pyInt_intCast _
    rw [hc, h3600]
  have hminutes : pyInt (pyFloorDiv (pyMod q 3600) 60) =
      ((⌊1000 * q⌋₊ % 3600000 / 60000 : ℕ) : ℤ) := by
    have hc : pyInt (pyFloorDiv (pyMod q 3600) 60) = ⌊pyMod q 3600 / 60⌋ :=
      pyInt_intCast _
    rw [hc]
    have harg : pyMod q 3600 / 60 =
        q / 60 - ((60 * ⌊q / 3600⌋ : ℤ) : ℚ) := by
      unfold pyMod
      push_cast
      ring
    rw [show ⌊pyMod q 3600 / 60⌋ = ⌊q / 60 - ((60 * ⌊q / 3600⌋ : ℤ) : ℚ)⌋
        from by rw [harg]]
    rw [Int.floor_sub_int, h60, h3600]
    omega
  have hsecs : pyInt (pyMod q 60) =
      ((⌊1000 * q⌋₊ % 60000 / 1000 : ℕ) : ℤ) := by
    have h0 : (0:ℚ) ≤ pyMod q 60 := by
      have h60p := Int.sub_floor_div_mul_nonneg q (show (0:ℚ) < 60 by norm_num)
      unfold pyMod
      linarith
    rw [pyInt_of_nonneg _ h0]
    have harg : pyMod q 60 = q - ((60 * ⌊q / 60⌋ : ℤ) : ℚ) := by
      unfold pyMod
      push_cast
      ring
    rw [show ⌊pyMod q 60⌋ = ⌊q - ((60 * ⌊q / 60⌋ : ℤ) : ℚ)⌋
        from by rw [harg]]
    rw [Int.floor_sub_int, hfloor, h60]
    omega
  have hmillis : pyInt ((q - (pyInt q : ℚ)) * 1000) =
      ((⌊1000 * q⌋₊ % 1000 : ℕ) : ℤ) := by
    rw [pyInt_of_nonneg q hq]
    have h0 : (0:ℚ) ≤ (q - (⌊q⌋ : ℚ)) * 1000 :=
      mul_nonneg (sub_nonneg.mpr (Int.floor_le q)) (by norm_num)
    rw [pyInt_of_nonneg _ h0]
    have harg : (q - (⌊q⌋ : ℚ)) * 1000 =
        1000 * q - ((1000 * ⌊q⌋ : ℤ) : ℚ) := by
      push_cast
      ring
    rw [show ⌊(q - (⌊q⌋ : ℚ)) * 1000⌋ = ⌊1000 * q - ((1000 * ⌊q⌋ : ℤ) : ℚ)⌋
        from by rw [harg]]
    rw [Int.floor_sub_int, hM, hfloor]
    omega
  show (pyInt (pyFloorDiv q 3600), pyInt (pyFloorDiv (pyMod q 3600) 60),
    pyInt (pyMod q 60), pyInt ((q - (pyInt q : ℚ)) * 1000)) = _
  rw [hhours, hminutes, hsecs, hmillis]

theorem format_timestamp_congr (q1 q2 : ℚ) (c : Bool)
    (h : timestampFields q1 = timestampFields q2) :
    format_timestamp q1 c = format_timestamp q2 c := by
  simp only [format_timestamp]
  rw [show pyInt (pyFloorDiv q1 3600) = pyInt (pyFloorDiv q2 3600) from
      congrArg Prod.fst h,
    show pyInt (pyFloorDiv (pyMod q1 3600) 60) =
        pyInt (pyFloorDiv (pyMod q2 3600) 60) from
      congrArg (fun t => t.2.1) h,
    show pyInt (pyMod q1 60) = pyInt (pyMod q2 60) from
      congrArg (fun t => t.2.2.1) h,
    show pyInt ((q1 - (pyInt q1 : ℚ)) * 1000) =
        pyInt ((q2 - (pyInt q2 : ℚ)) * 1000) from
      congrArg (fun t => t.2.2.2) h]

theorem parse_fields_value (q : ℚ) (hq : 0 ≤ q) :
    parseTimestampSeconds (timestampFields q).1 (timestampFields q).2.1
      (timestampFields q).2.2.1 (timestampFields q).2.2.2 =
      ((⌊1000 * q⌋₊ : ℕ) : ℚ) / 1000 := by
  rw [timestampFields_eq q hq]
  obtain ⟨a, b, c, d, ha, hb, hc, hd, hkey⟩ :
      ∃ a b c d : ℕ, ⌊1000 * q⌋₊ / 3600000 = a ∧
        ⌊1000 * q⌋₊ % 3600000 / 60000 = b ∧
        ⌊1000 * q⌋₊ % 60000 / 1000 = c ∧ ⌊1000 * q⌋₊ % 1000 = d ∧
        3600000 * a + 60000 * b + 1000 * c + d = ⌊1000 * q⌋₊ :=
    ⟨_, _, _, _, rfl, rfl, rfl, rfl, by omega⟩
  rw [ha, hb, hc, hd, ← hkey]
  unfold parseTimestampSeconds
  push_cast
  field_simp
  ring

/-- C7: the fields appearing in a generated SubRip timestamp, parsed back
into seconds as `h*3600 + m*60 + s + ms/1000` and formatted again with
the comma separator, reproduce the original timestamp string byte for
byte; and the timestamp string is exactly those four fields zero-padded
around `:` and `,`. -/
theorem srt_timestamp_roundtrip (q : ℚ) (hq : 0 ≤ q) :
    format_timestamp
        (parseTimestampSeconds (timestampFields q).1 (timestampFields q).2.1
          (timestampFields q).2.2.1 (timestampFields q).2.2.2) true =
      format_timestamp q true ∧
    format_timestamp q true =
      formatInt 2 (timestampFields q).1 ++ ":" ++
        formatInt 2 (timestampFields q).2.1 ++ ":" ++
        formatInt 2 (timestampFields q).2.2.1 ++ "," ++
        formatInt 3 (timestampFields q).2.2.2 := by
  constructor
  · apply format_timestamp_congr
    rw [parse_fields_value q hq]
    have hval : (1000 : ℚ) * (((⌊1000 * q⌋₊ : ℕ) : ℚ) / 1000) =
        ((⌊1000 * q⌋₊ : ℕ) : ℚ) := by
      field_simp
    rw [timestampFields_eq _ (by positivity), timestampFields_eq q hq,
      hval, Nat.floor_natCast]
  · rfl

theorem srt_timestamp_roundtrip_witness :
    format_timestamp
        (parseTimestampSeconds (timestampFields (3/2)).1
          (timestampFields (3/2)).2.1 (timestampFields (3/2)).2.2.1
          (timestampFields (3/2)).2.2.2) true =
      format_timestamp (3/2) true ∧
    format_timestamp (3/2) true =
      formatInt 2 (timestampFields (3/2)).1 ++ ":" ++
        formatInt 2 (timestampFields (3/2)).2.1 ++ ":" ++
        formatInt 2 (timestampFields (3/2)).2.2.1 ++ "," ++
        formatInt 3 (timestampFields (3/2)).2.2.2 :=
  srt_timestamp_roundtrip (3/2) (by norm_num)

theorem srtLines_length (i : Nat) (l : List Segment) :
    (srtLines i l).length = l.length := by
  induction l generalizing i with
  | nil => rfl
  | cons a t ih => simp [srtLines, ih]

/-- C10 as stated is false: for the segment with start 9/10000 s and end
1/10000 s (end < start, both non-negative) the two rendered timestamps
are identical, so the end timestamp does not denote an earlier clock
time than the start's. -/
theorem inverted_segment_equal_cex :
    (0 : ℚ) ≤ 1/10000 ∧ (1/10000 : ℚ) < 9/10000 ∧
    format_timestamp (1/10000) true = format_timestamp (9/10000) true ∧
    format_timestamp (1/10000) false = format_timestamp (9/10000) false :=
  ⟨by norm_num, by norm_num, by with_unfolding_all rfl,
   by with_unfolding_all rfl⟩

/-- C10 (amended): a segment with non-negative times and end < start is
serialized by both serializers without any error, clamping or dropping —
exactly one block per segment is emitted, with the start and end
timestamps formatted as given — and the end timestamp denotes a clock
time less than or equal to the start's (equality possible because of
millisecond truncation). -/
theorem inverted_segment_rendered (seg : Segment) (i : Nat)
    (h0 : 0 ≤ seg.«end») (hlt : seg.«end» < seg.start) :
    parseTimestampSeconds (timestampFields seg.«end»).1
        (timestampFields seg.«end»).2.1 (timestampFields seg.«end»).2.2.1
        (timestampFields seg.«end»).2.2.2 ≤
      parseTimestampSeconds (timestampFields seg.start).1
        (timestampFields seg.start).2.1 (timestampFields seg.start).2.2.1
        (timestampFields seg.start).2.2.2 ∧
    srtBlock i seg =
      toString i ++ "\n" ++ format_timestamp seg.start true ++ " --> " ++
        format_timestamp seg.«end» true ++ "\n" ++ pyStrip seg.text ++ "\n" ∧
    vttBlock seg =
      format_timestamp seg.start false ++ " --> " ++
        format_timestamp seg.«end» false ++ "\n" ++ pyStrip seg.text ++ "\n" ∧
    (∀ pre post : List Segment,
      (srtLines 1 (pre ++ seg :: post)).length =
        pre.length + 1 + post.length ∧
      ((pre ++ seg :: post).map vttBlock).length =
        pre.length + 1 + post.length) := by
  have hstart : (0:ℚ) ≤ seg.start := le_of_lt (lt_of_le_of_lt h0 hlt)
  refine ⟨?_, rfl, rfl, fun pre post => ⟨?_, ?_⟩⟩
  · rw [parse_fields_value _ h0, parse_fields_value _ hstart]
    have hM : ⌊1000 * seg.«end»⌋₊ ≤ ⌊1000 * seg.start⌋₊ :=
      Nat.floor_mono (by linarith)
    exact (div_le_div_iff_of_pos_right (by norm_num)).mpr (Nat.cast_le.mpr hM)
  · rw [srtLines_length]
    simp only [List.length_append, List.length_cons]
    omega
  · simp only [List.length_map, List.length_append, List.length_cons]
    omega

theorem inverted_segment_rendered_witness :
    parseTimestampSeconds (timestampFields ((1:ℚ)/10000)).1
        (timestampFields ((1:ℚ)/10000)).2.1
        (timestampFields ((1:ℚ)/10000)).2.2.1
        (timestampFields ((1:ℚ)/10000)).2.2.2 ≤
      parseTimestampSeconds (timestampFields ((9:ℚ)/10000)).1
        (timestampFields ((9:ℚ)/10000)).2.1
        (timestampFields ((9:ℚ)/10000)).2.2.1
        (timestampFields ((9:ℚ)/10000)).2.2.2 ∧
    srtBlock 1 ⟨9/10000, 1/10000, "x"⟩ =
      toString 1 ++ "\n" ++ format_timestamp (9/10000) true ++ " --> " ++
        format_timestamp (1/10000) true ++ "\n" ++ pyStrip "x" ++ "\n" ∧
    vttBlock ⟨9/10000, 1/10000, "x"⟩ =
      format_timestamp (9/10000) false ++ " --> " ++
        format_timestamp (1/10000) false ++ "\n" ++ pyStrip "x" ++ "\n" ∧
    (∀ pre post : List Segment,
      (srtLines 1 (pre ++ (⟨9/10000, 1/10000, "x"⟩ : Segment) :: post)).length =
        pre.length + 1 + post.length ∧
      ((pre ++ (⟨9/10000, 1/10000, "x"⟩ : Segment) :: post).map vttBlock).length =
        pre.length + 1 + post.length) :=
  inverted_segment_rendered ⟨9/10000, 1/10000, "x"⟩ 1 (by norm_num)
    (by norm_num)

theorem pyStrip_all_space (s : String) (h : s.data.all isPySpace = true) :
    pyStrip s = "" := by
  have h1 : s.data.dropWhile isPySpace = [] :=
    List.dropWhile_eq_nil_iff.mpr fun x hx => List.all_eq_true.mp h x hx
  unfold pyStrip
  rw [h1]
  rfl

/-- C9: a segment whose text is empty or all whitespace is still emitted
by both serializers — its block's text line is the empty string (the
timing line is followed directly by the block's terminating newline) and
the segment contributes exactly one block at its position in the
sequence. -/
theorem whitespace_segment_kept (pre post : List Segment) (s : Segment)
    (h : s.text.data.all isPySpace = true) :
    generate_srt (pre ++ s :: post) =
      pyJoin "\n" (srtLines 1 pre ++
        (toString (pre.length + 1) ++ "\n" ++
          format_timestamp s.start true ++ " --> " ++
          format_timestamp s.«end» true ++ "\n" ++ "" ++ "\n") ::
        srtLines (pre.length + 2) post) ∧
    generate_vtt (pre ++ s :: post) =
      pyJoin "\n" ("WEBVTT\n" :: pre.map vttBlock ++
        (format_timestamp s.start false ++ " --> " ++
          format_timestamp s.«end» false ++ "\n" ++ "" ++ "\n") ::
        post.map vttBlock) := by
  have hstrip : pyStrip s.text = "" := pyStrip_all_space _ h
  constructor
  · show pyJoin "\n" (srtLines 1 (pre ++ s :: post)) = _
    have hsplit : srtLines 1 (pre ++ s :: post) =
        srtLines 1 pre ++
          srtBlock (pre.length + 1) s :: srtLines (pre.length + 2) post := by
      rw [srtLines_append 1 pre (s :: post),
        show 1 + pre.length = pre.length + 1 from by omega]
      rfl
    rw [hsplit, show srtBlock (pre.length + 1) s =
        toString (pre.length + 1) ++ "\n" ++
          format_timestamp s.start true ++ " --> " ++
          format_timestamp s.«end» true ++ "\n" ++ "" ++ "\n" from by
      unfold srtBlock
      rw [hstrip]]
  · show pyJoin "\n" ("WEBVTT\n" :: (pre ++ s :: post).map vttBlock) = _
    rw [List.map_append, List.map_cons, show vttBlock s =
        format_timestamp s.start false ++ " --> " ++
          format_timestamp s.«end» false ++ "\n" ++ "" ++ "\n" from by
      unfold vttBlock
      rw [hstrip]]
    rw [List.cons_append]

theorem whitespace_segment_kept_witness :
    generate_srt ([] ++ (⟨0, 3/2, " \t"⟩ : Segment) :: []) =
      pyJoin "\n" (srtLines 1 [] ++
        (toString (List.length ([] : List Segment) + 1) ++ "\n" ++
          format_timestamp 0 true ++ " --> " ++
          format_timestamp (3/2) true ++ "\n" ++ "" ++ "\n") ::
        srtLines (List.length ([] : List Segment) + 2) []) ∧
    generate_vtt ([] ++ (⟨0, 3/2, " \t"⟩ : Segment) :: []) =
      pyJoin "\n" ("WEBVTT\n" :: List.map vttBlock [] ++
        (format_timestamp 0 false ++ " --> " ++
          format_timestamp (3/2) false ++ "\n" ++ "" ++ "\n") ::
        List.map vttBlock []) :=
  whitespace_segment_kept [] [] ⟨0, 3/2, " \t"⟩ (by decide)

theorem digitChar_isDigit (d : Nat) (h : d < 10) :
    (Nat.digitChar d).isDigit = true := by
  interval_cases d <;> decide

theorem digitChar_lt (d1 d2 : Nat) (h1 : d1 < 10) (h2 : d2 < 10) :
    d1 < d2 → Nat.digitChar d1 < Nat.digitChar d2 := by
  interval_cases d1 <;> interval_cases d2 <;> decide

theorem natDigits_all_isDigit (n : Nat) :
    (natDigits n).all Char.isDigit = true := by
  induction n using Nat.strong_induction_on with
  | _ n ih =>
    rw [natDigits]
    split
    · next h => simp [digitChar_isDigit n h]
    · next h =>
      rw [List.all_append]
      have h10 : 10 ≤ n := by omega
      have ih1 := ih (n / 10) (Nat.div_lt_self (by omega) (by omega))
      simp [ih1, digitChar_isDigit (n % 10) (Nat.mod_lt n (by omega))]

theorem natDigits_length_pos (n : Nat) : 0 < (natDigits n).length := by
  rw [natDigits]
  split <;> simp

theorem natDigits_lt10 (n : Nat) (h : n < 10) :
    natDigits n = [Nat.digitChar n] := by
  rw [natDigits]
  exact dif_pos h

theorem natDigits_ge10 (n : Nat) (h : ¬ n < 10) :
    natDigits n = natDigits (n / 10) ++ [Nat.digitChar (n % 10)] := by
  rw [natDigits]
  exact dif_neg h

theorem natDigits_length_le_two (n : Nat) (h : n < 100) :
    (natDigits n).length ≤ 2 := by
  by_cases h1 : n < 10
  · rw [natDigits_lt10 n h1]
    simp
  · rw [natDigits_ge10 n h1, natDigits_lt10 (n / 10) (by omega)]
    simp

theorem natDigits_length_le_three (n : Nat) (h : n < 1000) :
    (natDigits n).length ≤ 3 := by
  by_cases h1 : n < 10
  · rw [natDigits_lt10 n h1]
    simp
  · rw [natDigits_ge10 n h1]
    have := natDigits_length_le_two (n / 10) (by omega)
    simp only [List.length_append, List.length_cons, List.length_nil]
    omega

theorem natDigits_length_ge_three (n : Nat) (h : 100 ≤ n) :
    3 ≤ (natDigits n).length := by
  rw [natDigits_ge10 n (by omega), natDigits_ge10 (n / 10) (by omega)]
  have := natDigits_length_pos (n / 10 / 10)
  simp only [List.length_append, List.length_cons, List.length_nil]
  omega

theorem zfill_length (w : Nat) (ds : List Char) :
    (zfill w ds).length = max w ds.length := by
  simp only [zfill, List.length_append, List.length_replicate]
  omega

theorem zfill_all_isDigit (w : Nat) (ds : List Char)
    (h : ds.all Char.isDigit = true) :
    (zfill w ds).all Char.isDigit = true := by
  rw [zfill, List.all_append, h]
  have hz : (List.replicate (w - ds.length) '0').all Char.isDigit = true := by
    rw [List.all_eq_true]
    intro x hx
    rw [List.eq_of_mem_replicate hx]
    decide
  rw [hz]
  rfl

theorem formatInt_natCast (w : Nat) (m : ℕ) :
    formatInt w (m : ℤ) = ⟨zfill w (natDigits m)⟩ := by
  unfold formatInt
  rw [if_neg (not_lt.mpr (Int.natCast_nonneg m)), Int.natAbs_ofNat]

theorem mk_data (l : List Char) : (⟨l⟩ : String).data = l := rfl

theorem isDigit_ne_colon (c : Char) (h : c.isDigit = true) : c ≠ ':' := by
  intro heq
  rw [heq] at h
  exact absurd h (by decide)

theorem takeWhile_append_all (p : Char → Bool) (l1 l2 : List Char)
    (h : ∀ x ∈ l1, p x = true) :
    (l1 ++ l2).takeWhile p = l1 ++ l2.takeWhile p := by
  induction l1 with
  | nil => rfl
  | cons a t ih =>
    rw [List.cons_append, List.takeWhile_cons, h a (List.mem_cons_self a t),
      ih fun x hx => h x (List.mem_cons_of_mem a hx), List.cons_append]
    rfl

theorem dropWhile_append_all (p : Char → Bool) (l1 l2 : List Char)
    (h : ∀ x ∈ l1, p x = true) :
    (l1 ++ l2).dropWhile p = l2.dropWhile p := by
  induction l1 with
  | nil => rfl
  | cons a t ih =>
    rw [List.cons_append, List.dropWhile_cons, h a (List.mem_cons_self a t),
      ih fun x hx => h x (List.mem_cons_of_mem a hx)]
    rfl

theorem format_timestamp_decomp (q : ℚ) (c : Bool) (hq : 0 ≤ q) :
    (format_timestamp q c).data =
      zfill 2 (natDigits (⌊1000 * q⌋₊ / 3600000)) ++
        ':' :: (zfill 2 (natDigits (⌊1000 * q⌋₊ % 3600000 / 60000)) ++
        ':' :: (zfill 2 (natDigits (⌊1000 * q⌋₊ % 60000 / 1000)) ++
        (if c then ',' else '.') ::
          zfill 3 (natDigits (⌊1000 * q⌋₊ % 1000)))) := by
  have hf := timestampFields_eq q hq
  have e1 : (timestampFields q).1 = ((⌊1000 * q⌋₊ / 3600000 : ℕ) : ℤ) := by
    rw [hf]
  have e2 : (timestampFields q).2.1 =
      ((⌊1000 * q⌋₊ % 3600000 / 60000 : ℕ) : ℤ) := by
    rw [hf]
  have e3 : (timestampFields q).2.2.1 =
      ((⌊1000 * q⌋₊ % 60000 / 1000 : ℕ) : ℤ) := by
    rw [hf]
  have e4 : (timestampFields q).2.2.2 = ((⌊1000 * q⌋₊ % 1000 : ℕ) : ℤ) := by
    rw [hf]
  have h1 : format_timestamp q c =
      formatInt 2 (timestampFields q).1 ++ ":" ++
      formatInt 2 (timestampFields q).2.1 ++ ":" ++
      formatInt 2 (timestampFields q).2.2.1 ++
      (if c then "," else ".") ++ formatInt 3 (timestampFields q).2.2.2 := rfl
  rw [h1, e1, e2, e3, e4, formatInt_natCast, formatInt_natCast,
    formatInt_natCast, formatInt_natCast]
  cases c <;>
    simp [String.data_append, mk_data, List.append_assoc]

theorem zfill2_two_chars (m : ℕ) (h : m < 100) :
    ∃ a b : Char, zfill 2 (natDigits m) = [a, b] ∧
      a.isDigit = true ∧ b.isDigit = true := by
  have hlen : (zfill 2 (natDigits m)).length = 2 := by
    rw [zfill_length]
    have h1 := natDigits_length_pos m
    have h2 := natDigits_length_le_two m h
    omega
  obtain ⟨a, b, hab⟩ := List.length_eq_two.mp hlen
  have hall := zfill_all_isDigit 2 _ (natDigits_all_isDigit m)
  rw [hab] at hall
  exact ⟨a, b, hab, List.all_eq_true.mp hall a (by simp),
    List.all_eq_true.mp hall b (by simp)⟩

theorem zfill3_three_chars (m : ℕ) (h : m < 1000) :
    ∃ a b c : Char, zfill 3 (natDigits m) = [a, b, c] ∧
      a.isDigit = true ∧ b.isDigit = true ∧ c.isDigit = true := by
  have hlen : (zfill 3 (natDigits m)).length = 3 := by
    rw [zfill_length]
    have h1 := natDigits_length_pos m
    have h2 := natDigits_length_le_three m h
    omega
  obtain ⟨a, b, c, habc⟩ := List.length_eq_three.mp hlen
  have hall := zfill_all_isDigit 3 _ (natDigits_all_isDigit m)
  rw [habc] at hall
  exact ⟨a, b, c, habc, List.all_eq_true.mp hall a (by simp),
    List.all_eq_true.mp hall b (by simp), List.all_eq_true.mp hall c (by simp)⟩

theorem zfill3_eq (m : ℕ) (h : m < 1000) :
    zfill 3 (natDigits m) =
      [Nat.digitChar (m / 100), Nat.digitChar (m / 10 % 10),
        Nat.digitChar (m % 10)] := by
  by_cases h1 : m < 10
  · rw [natDigits_lt10 m h1,
      show m / 100 = 0 from by omega, show m / 10 % 10 = 0 from by omega,
      show m % 10 = m from by omega]
    rfl
  · by_cases h2 : m < 100
    · rw [natDigits_ge10 m h1, natDigits_lt10 (m / 10) (by omega),
        show m / 100 = 0 from by omega,
        show m / 10 % 10 = m / 10 from by omega]
      rfl
    · rw [natDigits_ge10 m h1, natDigits_ge10 (m / 10) (by omega),
        natDigits_lt10 (m / 10 / 10) (by omega),
        show m / 10 / 10 = m / 100 from by omega]
      rfl

theorem digits3_lex_le (x y : ℕ) (hx : x < 1000) (hy : y < 1000)
    (hxy : x ≤ y) :
    zfill 3 (natDigits x) = zfill 3 (natDigits y) ∨
      List.Lex (fun a b : Char => a < b)
        (zfill 3 (natDigits x)) (zfill 3 (natDigits y)) := by
  rw [zfill3_eq x hx, zfill3_eq y hy]
  rcases Nat.lt_or_ge (x / 100) (y / 100) with h | h
  · exact Or.inr (List.Lex.rel (digitChar_lt _ _ (by omega) (by omega) h))
  · have h100 : x / 100 = y / 100 := by omega
    rw [h100]
    rcases Nat.lt_or_ge (x / 10 % 10) (y / 10 % 10) with h' | h'
    · exact Or.inr (List.Lex.cons
        (List.Lex.rel (digitChar_lt _ _ (by omega) (by omega) h')))
    · have h10 : x / 10 % 10 = y / 10 % 10 := by omega
      rw [h10]
      rcases Nat.lt_or_ge (x % 10) (y % 10) with h'' | h'' 
      · exact Or.inr (List.Lex.cons (List.Lex.cons
          (List.Lex.rel (digitChar_lt _ _ (by omega) (by omega) h''))))
      · have hlast : x % 10 = y % 10 := by omega
        rw [hlast]
        exact Or.inl rfl

theorem lex_append_left (P l1 l2 : List Char)
    (h : List.Lex (fun a b : Char => a < b) l1 l2) :
    List.Lex (fun a b : Char => a < b) (P ++ l1) (P ++ l2) := by
  induction P with
  | nil => exact h
  | cons a t ih => exact List.Lex.cons ih

theorem floor_eq_milli_div (q : ℚ) (hq : 0 ≤ q) :
    ⌊q⌋ = ((⌊1000 * q⌋₊ / 1000 : ℕ) : ℤ) := by
  rw [← nat_floor_div_1000 q]
  exact (Int.natCast_floor_eq_floor hq).symm

theorem digits_ne_colon (l : List Char) (h : l.all Char.isDigit = true) :
    ∀ x ∈ l, (fun ch => decide (ch ≠ ':')) x = true := fun x hx => by
  simp only [decide_eq_true_eq]
  exact isDigit_ne_colon x (List.all_eq_true.mp h x hx)

/-- C8: for non-negative seconds the formatted timestamp matches the
pattern `\d{2,}:\d{2}:\d{2}[,.]\d{3}`; from 100 hours upward the hour
field carries three or more digits instead of wrapping or truncating;
and for two inputs with the same integer second the output string is
monotone under the lexicographic string order. -/
theorem timestamp_shape_monotone :
    (∀ (q : ℚ) (c : Bool), 0 ≤ q →
      timestampShape (format_timestamp q c).data = true) ∧
    (∀ (q : ℚ) (c : Bool), 360000 ≤ q →
      3 ≤ ((format_timestamp q c).data.takeWhile fun ch => ch ≠ ':').length) ∧
    (∀ (q1 q2 : ℚ) (c : Bool), 0 ≤ q1 → q1 ≤ q2 → ⌊q1⌋ = ⌊q2⌋ →
      format_timestamp q1 c ≤ format_timestamp q2 c) := by
  refine ⟨fun q c hq => ?_, fun q c hq360 => ?_,
    fun q1 q2 c h1 h12 hfl => ?_⟩
  · have hdc := format_timestamp_decomp q c hq
    obtain ⟨a1, a2, hA, ha1, ha2⟩ :=
      zfill2_two_chars (⌊1000 * q⌋₊ % 3600000 / 60000) (by omega)
    obtain ⟨b1, b2, hB, hb1, hb2⟩ :=
      zfill2_two_chars (⌊1000 * q⌋₊ % 60000 / 1000) (by omega)
    obtain ⟨d1, d2, d3, hD, hdg1, hdg2, hdg3⟩ :=
      zfill3_three_chars (⌊1000 * q⌋₊ % 1000) (by omega)
    rw [hdc, hA, hB, hD]
    have hH := zfill_all_isDigit 2 _
      (natDigits_all_isDigit (⌊1000 * q⌋₊ / 3600000))
    have hHlen : 2 ≤ (zfill 2 (natDigits (⌊1000 * q⌋₊ / 3600000))).length := by
      rw [zfill_length]
      omega
    simp only [timestampShape]
    rw [takeWhile_append_all _ _ _ (digits_ne_colon _ hH),
      dropWhile_append_all _ _ _ (digits_ne_colon _ hH)]
    have ht : List.takeWhile (fun ch => decide (ch ≠ ':'))
        (':' :: ([a1, a2] ++ ':' :: ([b1, b2] ++ (if c then ',' else '.') ::
          [d1, d2, d3]))) = [] := by
      simp
    have hdr : List.dropWhile (fun ch => decide (ch ≠ ':'))
        (':' :: ([a1, a2] ++ ':' :: ([b1, b2] ++ (if c then ',' else '.') ::
          [d1, d2, d3]))) =
        ':' :: ([a1, a2] ++ ':' :: ([b1, b2] ++ (if c then ',' else '.') ::
          [d1, d2, d3])) := by
      simp
    rw [ht, hdr, List.append_nil]
    cases c <;>
      simp [hH, hHlen, ha1, ha2, hb1, hb2, hdg1, hdg2, hdg3]
  · have hq : (0:ℚ) ≤ q := by linarith
    have hdc := format_timestamp_decomp q c hq
    rw [hdc]
    have hH := zfill_all_isDigit 2 _
      (natDigits_all_isDigit (⌊1000 * q⌋₊ / 3600000))
    rw [takeWhile_append_all _ _ _ (digits_ne_colon _ hH)]
    have ht : List.takeWhile (fun ch => decide (ch ≠ ':'))
        (':' :: (zfill 2 (natDigits (⌊1000 * q⌋₊ % 3600000 / 60000)) ++
          ':' :: (zfill 2 (natDigits (⌊1000 * q⌋₊ % 60000 / 1000)) ++
          (if c then ',' else '.') ::
            zfill 3 (natDigits (⌊1000 * q⌋₊ % 1000))))) = [] := by
      simp
    rw [ht, List.append_nil, zfill_length]
    have h100 : 100 ≤ ⌊1000 * q⌋₊ / 3600000 := by
      have hc : (360000000 : ℚ) ≤ 1000 * q := by linarith
      have hM : 360000000 ≤ ⌊1000 * q⌋₊ := Nat.le_floor (by exact_mod_cast hc)
      omega
    have := natDigits_length_ge_three _ h100
    omega
  · have hq2 : (0:ℚ) ≤ q2 := le_trans h1 h12
    have hM12 : ⌊1000 * q1⌋₊ ≤ ⌊1000 * q2⌋₊ :=
      Nat.floor_mono (by linarith)
    have hnn : ⌊1000 * q1⌋₊ / 1000 = ⌊1000 * q2⌋₊ / 1000 := by
      have hcast : ((⌊1000 * q1⌋₊ / 1000 : ℕ) : ℤ) =
          ((⌊1000 * q2⌋₊ / 1000 : ℕ) : ℤ) := by
        rw [← floor_eq_milli_div q1 h1, ← floor_eq_milli_div q2 hq2]
        exact hfl
      exact_mod_cast hcast
    have e1 : ⌊1000 * q1⌋₊ / 3600000 = ⌊1000 * q2⌋₊ / 3600000 := by omega
    have e2 : ⌊1000 * q1⌋₊ % 3600000 / 60000 =
        ⌊1000 * q2⌋₊ % 3600000 / 60000 := by omega
    have e3 : ⌊1000 * q1⌋₊ % 60000 / 1000 =
        ⌊1000 * q2⌋₊ % 60000 / 1000 := by omega
    have e4 : ⌊1000 * q1⌋₊ % 1000 ≤ ⌊1000 * q2⌋₊ % 1000 := by omega
    have hd1 := format_timestamp_decomp q1 c h1
    have hd2 := format_timestamp_decomp q2 c hq2
    rw [e1, e2, e3] at hd1
    have hsplit : ∀ D : List Char,
        zfill 2 (natDigits (⌊1000 * q2⌋₊ / 3600000)) ++
          ':' :: (zfill 2 (natDigits (⌊1000 * q2⌋₊ % 3600000 / 60000)) ++
          ':' :: (zfill 2 (natDigits (⌊1000 * q2⌋₊ % 60000 / 1000)) ++
          (if c then ',' else '.') :: D)) =
        (zfill 2 (natDigits (⌊1000 * q2⌋₊ / 3600000)) ++
          ':' :: (zfill 2 (natDigits (⌊1000 * q2⌋₊ % 3600000 / 60000)) ++
          ':' :: (zfill 2 (natDigits (⌊1000 * q2⌋₊ % 60000 / 1000)) ++
          [if c then ',' else '.']))) ++ D := by
      intro D
      simp [List.append_assoc]
    rw [hsplit] at hd1 hd2
    rcases digits3_lex_le (⌊1000 * q1⌋₊ % 1000) (⌊1000 * q2⌋₊ % 1000)
        (by omega) (by omega) e4 with heq | hlex
    · rw [heq] at hd1
      exact le_of_eq (string_ext_data (hd1.trans hd2.symm))
    · apply le_of_lt
      rw [String.lt_iff_toList_lt]
      show (format_timestamp q1 c).data < (format_timestamp q2 c).data
      rw [hd1, hd2]
      exact lex_append_left _ _ _ hlex

theorem timestamp_shape_monotone_witness :
    timestampShape (format_timestamp (13/4) true).data = true ∧
    3 ≤ ((format_timestamp 360000 false).data.takeWhile
      fun ch => ch ≠ ':').length ∧
    format_timestamp (3/2) true ≤ format_timestamp (7/4) true :=
  ⟨timestamp_shape_monotone.1 (13/4) true (by norm_num),
   timestamp_shape_monotone.2.1 360000 false (by norm_num),
   timestamp_shape_monotone.2.2 (3/2) (7/4) true (by norm_num) (by norm_num)
     (by norm_num [Int.floor_eq_iff])⟩
